import Mathlib

/-!
# Verification of the link-checker batch pipeline

Shallow embedding of the link-checker repository (`app.py`,
`utils/exa_api.py`, `utils/openrouter_api.py`, `utils/csv_handler.py`).

Python strings are modelled as Lean `String` values, but the Python string
primitives (`.upper()`, `.strip()`, `.split()`, `.startswith(...)`) are
re-implemented over the underlying character list (`String.data`), mirroring
the Python (code-point based) semantics and keeping every definition
kernel-computable.  Python `dict`s (insertion ordered, assignment replaces
the value of an existing key in place) are modelled as association lists.
The two outbound network calls are modelled as explicit oracles
(`List String → Except String ExaResponse` for the content service and
`String → Except String ORResponse` for the chat service); `Except.error`
models a raised exception.  Network activity and the inter-batch pause are
reified as an event trace (`NetEvent`).
-/

namespace LinkChecker

/-! ## Python string primitives -/

/-- Python `s.upper()`.  Lean's `Char.toUpper` uppercases exactly the ASCII
range, which matches Python on the ASCII verdict tokens this program
compares against. -/
def pyUpper (s : String) : String := ⟨s.data.map Char.toUpper⟩

/-- Python `s.strip()`: remove leading and trailing whitespace. -/
def pyStrip (s : String) : String :=
  ⟨((s.data.dropWhile Char.isWhitespace).reverse.dropWhile Char.isWhitespace).reverse⟩

/-- Python `s.startswith(p)`. -/
def pyStartsWith (s p : String) : Bool := p.data.isPrefixOf s.data

/-- Helper for `pySplitWS`: scan the character list, accumulating the current
(reversed) token; whitespace closes the current token, and empty tokens are
never produced. -/
def wsTokens : List Char → List Char → List String
  | [], cur => if cur.isEmpty then [] else [⟨cur.reverse⟩]
  | c :: rest, cur =>
    if c.isWhitespace then
      (if cur.isEmpty then wsTokens rest [] else ⟨cur.reverse⟩ :: wsTokens rest [])
    else wsTokens rest (c :: cur)

/-- Python `s.split()` with no separator argument: split on runs of
whitespace, discarding empty tokens. -/
def pySplitWS (s : String) : List String := wsTokens s.data []

/-- Python `s[:n]` (slicing is by code point, i.e. by `Char`). -/
def pyTake (s : String) (n : Nat) : String := ⟨s.data.take n⟩

/-! ## Python dict model

A Python `dict` with string keys and values: an insertion-ordered
association list with unique keys.  `d[k] = v` on an existing key replaces
the value in place, otherwise appends. -/

abbrev Dict := List (String × String)

/-- Python `k in d`. -/
def dmem (k : String) : Dict → Bool
  | [] => false
  | (k0, _) :: rest => if k0 = k then true else dmem k rest

/-- Python `d.get(k, dflt)`. -/
def dget (d : Dict) (k : String) (dflt : String) : String :=
  match d with
  | [] => dflt
  | (k0, v0) :: rest => if k0 = k then v0 else dget rest k dflt

/-- Python `d[k] = v`. -/
def dinsert : Dict → String → String → Dict
  | [], k, v => [(k, v)]
  | (k0, v0) :: rest, k, v =>
    if k0 = k then (k0, v) :: rest else (k0, v0) :: dinsert rest k v

/-- Python `d.update(d2)`: insert every entry of `d2` in order. -/
def dupdate (d d2 : Dict) : Dict := d2.foldl (fun acc p => dinsert acc p.1 p.2) d

theorem dget_dinsert_self (d : Dict) (k v dflt : String) :
    dget (dinsert d k v) k dflt = v := by
  induction d with
  | nil => simp [dinsert, dget]
  | cons p rest ih =>
    obtain ⟨k0, v0⟩ := p
    by_cases h : k0 = k <;> simp [dinsert, dget, h, ih]

theorem dget_dinsert_ne (d : Dict) {k' k : String} (v dflt : String) (h : k' ≠ k) :
    dget (dinsert d k' v) k dflt = dget d k dflt := by
  induction d with
  | nil => simp [dinsert, dget, h]
  | cons p rest ih =>
    obtain ⟨k0, v0⟩ := p
    by_cases h0 : k0 = k'
    · subst h0
      simp [dinsert, dget, h]
    · simp [dinsert, dget, h0, ih]

theorem dmem_dinsert_self (d : Dict) (k v : String) :
    dmem k (dinsert d k v) = true := by
  induction d with
  | nil => simp [dinsert, dmem]
  | cons p rest ih =>
    obtain ⟨k0, v0⟩ := p
    by_cases h : k0 = k <;> simp [dinsert, dmem, h, ih]

theorem dmem_dinsert_ne (d : Dict) {k' k : String} (v : String) (h : k' ≠ k) :
    dmem k (dinsert d k' v) = dmem k d := by
  induction d with
  | nil => simp [dinsert, dmem, h]
  | cons p rest ih =>
    obtain ⟨k0, v0⟩ := p
    by_cases h0 : k0 = k'
    · subst h0
      simp [dinsert, dmem, h]
    · simp [dinsert, dmem, h0, ih]

theorem dmem_dinsert_mono (d : Dict) {k : String} (k' v : String)
    (h : dmem k d = true) : dmem k (dinsert d k' v) = true := by
  by_cases hk : k' = k
  · subst hk
    exact dmem_dinsert_self d k' v
  · rw [dmem_dinsert_ne d v hk]
    exact h

/-! ## Content retrieval client (`utils/exa_api.py`, class `ExaAPI`)

The wire response of the content service (`/contents`): a `results` list of
`{id, text}` items and a `statuses` list of `{id, status, error: {tag}}`
items.  `Option` models an absent JSON key (the source reads every field
with `.get(...)` and a default). -/

structure ExaResult where
  id : Option String
  text : Option String

structure ExaStatus where
  id : Option String
  status : Option String
  /-- `status.get('error', {}).get('tag', ...)`: `none` models either the
  `error` object or its `tag` field being absent. -/
  error_tag : Option String

structure ExaResponse where
  results : Option (List ExaResult)
  statuses : Option (List ExaStatus)

/-- Network / pause events emitted by the retrieval layer.  `fetch urls`
is one POST of `urls` to the content service; `sleep` is the fixed
`time.sleep(0.5)` pause between batches. -/
inductive NetEvent where
  | fetch (urls : List String)
  | sleep
deriving DecidableEq

/-- The response-processing part of `ExaAPI.get_content_batch`
(`exa_api.py` lines 68-94), run after a successful HTTP call:

* every item of `data['results']` is recorded as `id → text`
  (defaults `''` / `'No content available'`);
* every item of `data['statuses']` whose status is `'error'` is recorded as
  `id → "Error: <tag>"`, but only when that id has no entry yet;
* every requested URL still missing is recorded as
  `"Error: URL not found in response"`.

The three loop bodies are the named step functions `resIns`, `stIns` and
`fillIns` below; `parse_exa_response` chains the three folds. -/
def resIns (acc : Dict) (r : ExaResult) : Dict :=
  dinsert acc (r.id.getD "") (r.text.getD "No content available")

def stIns (acc : Dict) (s : ExaStatus) : Dict :=
  if s.status = some "error" then
    if dmem (s.id.getD "") acc = false then
      dinsert acc (s.id.getD "") ("Error: " ++ s.error_tag.getD "Unknown error")
    else acc
  else acc

def fillIns (acc : Dict) (url : String) : Dict :=
  if dmem url acc = false then dinsert acc url "Error: URL not found in response"
  else acc

def parse_exa_response (urls : List String) (data : ExaResponse) : Dict :=
  urls.foldl fillIns ((data.statuses.getD []).foldl stIns ((data.results.getD []).foldl resIns []))

/-- `ExaAPI.get_content_batch` (`exa_api.py` lines 19-103).  `fetchOracle`
models `requests.post` + `raise_for_status` + `response.json()`; its
`Except.error e` models a raised `requests.exceptions.RequestException`,
which the source wraps as `Exception("Network error: <e>")` and re-raises.
Returns the result (or raised exception) together with the emitted network
events; the empty-input early return happens before any request is built. -/
def get_content_batch (fetchOracle : List String → Except String ExaResponse)
    (urls : List String) : Except String Dict × List NetEvent :=
  if urls = [] then (Except.ok [], [])
  else
    match fetchOracle urls with
    | Except.ok data => (Except.ok (parse_exa_response urls data), [NetEvent.fetch urls])
    | Except.error e => (Except.error ("Network error: " ++ e), [NetEvent.fetch urls])

/-- The batch slices `urls[i : i + 10]` visited by the loop
`for i in range(0, len(urls), self.batch_size)` of
`ExaAPI.process_urls_in_batches` (`self.batch_size = 10`). -/
def chunksOf10 : List String → List (List String)
  | [] => []
  | u :: us => ((u :: us).take 10) :: chunksOf10 ((u :: us).drop 10)
termination_by l => l.length
decreasing_by simp [List.length_drop]; omega

/-- Loop body of `ExaAPI.process_urls_in_batches` (`exa_api.py` lines
120-142), iterating over the batch slices.  On success the batch results
are merged (`all_results.update(batch_results)`) and, when further batches
remain (`i + self.batch_size < len(urls)` — equivalently the remaining
chunk list is nonempty), the fixed pause runs; on failure every URL of the
batch is marked `"Batch error: <message>"` and the loop continues with the
next batch (the pause inside the `try` block is skipped). -/
def batchLoopGo (fetchOracle : List String → Except String ExaResponse) :
    List (List String) → Dict → Dict × List NetEvent
  | [], acc => (acc, [])
  | batch :: rest, acc =>
    match get_content_batch fetchOracle batch with
    | (Except.ok batch_results, evs) =>
      let acc2 := dupdate acc batch_results
      let pause : List NetEvent := if rest = [] then [] else [NetEvent.sleep]
      let r := batchLoopGo fetchOracle rest acc2
      (r.1, evs ++ pause ++ r.2)
    | (Except.error e, evs) =>
      let acc2 := batch.foldl (fun a url => dinsert a url ("Batch error: " ++ e)) acc
      let r := batchLoopGo fetchOracle rest acc2
      (r.1, evs ++ r.2)

/-- `ExaAPI.process_urls_in_batches` (`exa_api.py` lines 105-145): the
accumulated URL → content mapping plus the emitted event trace. -/
def process_urls_in_batches (fetchOracle : List String → Except String ExaResponse)
    (urls : List String) : Dict × List NetEvent :=
  batchLoopGo fetchOracle (chunksOf10 urls) []

/-- The batches actually POSTed to the content service, in order. -/
def fetchEvents : List NetEvent → List (List String)
  | [] => []
  | NetEvent.fetch b :: rest => b :: fetchEvents rest
  | NetEvent.sleep :: rest => fetchEvents rest

/-- The expected event trace when every batch call succeeds: the batches in
order, with exactly one pause between consecutive batches and none after
the last. -/
def sleepSep : List (List String) → List NetEvent
  | [] => []
  | [b] => [NetEvent.fetch b]
  | b :: b2 :: rest => NetEvent.fetch b :: NetEvent.sleep :: sleepSep (b2 :: rest)

/-- Spec-level description of one entry of the batch-retrieval mapping
(§4.2 of the spec, claim C4): the text of the (last) matching item of the
result list if there is one, else the `"Error: <tag>"` marker of the first
matching errored status, else the defensive
`"Error: URL not found in response"` marker. -/
def exaLookup (data : ExaResponse) (url : String) : String :=
  match (data.results.getD []).reverse.find? (fun r => r.id.getD "" = url) with
  | some r => r.text.getD "No content available"
  | none =>
    match (data.statuses.getD []).find?
        (fun s => s.id.getD "" = url ∧ s.status = some "error") with
    | some s => "Error: " ++ s.error_tag.getD "Unknown error"
    | none => "Error: URL not found in response"

/-! ## Lemmas about the three folds of `parse_exa_response` -/

theorem resFold_dget (rs : List ExaResult) (acc : Dict) (url dflt : String) :
    dget (rs.foldl resIns acc) url dflt =
      match rs.reverse.find? (fun r => r.id.getD "" = url) with
      | some r => r.text.getD "No content available"
      | none => dget acc url dflt := by
  induction rs generalizing acc with
  | nil => simp
  | cons r rest ih =>
    rw [List.foldl_cons, ih, List.reverse_cons, List.find?_append]
    cases hfind : rest.reverse.find? (fun r => decide (r.id.getD "" = url)) with
    | some r' => simp [Option.or]
    | none =>
      by_cases hid : r.id.getD "" = url
      · have h1 : List.find? (fun r => decide (r.id.getD "" = url)) [r] = some r := by
          simp [List.find?, hid]
        rw [h1]
        simp only [Option.or]
        rw [resIns, ← hid]
        exact dget_dinsert_self acc _ _ dflt
      · have h1 : List.find? (fun r => decide (r.id.getD "" = url)) [r] = none := by
          simp [List.find?, hid]
        rw [h1]
        simp only [Option.or]
        rw [resIns]
        exact dget_dinsert_ne acc _ dflt hid

theorem resFold_dmem (rs : List ExaResult) (acc : Dict) (url : String) :
    dmem url (rs.foldl resIns acc) =
      (rs.any (fun r => r.id.getD "" = url) || dmem url acc) := by
  induction rs generalizing acc with
  | nil => simp
  | cons r rest ih =>
    rw [List.foldl_cons, ih, List.any_cons]
    by_cases hid : r.id.getD "" = url
    · rw [resIns, hid]
      simp [dmem_dinsert_self]
    · rw [resIns]
      rw [dmem_dinsert_ne acc _ hid]
      simp [hid]

theorem stIns_preserve {acc : Dict} {url : String} (s : ExaStatus) (dflt : String)
    (h : dmem url acc = true) :
    dmem url (stIns acc s) = true ∧ dget (stIns acc s) url dflt = dget acc url dflt := by
  rw [stIns]
  by_cases hstat : s.status = some "error"
  · simp only [hstat, if_pos rfl]
    by_cases hmem : dmem (s.id.getD "") acc = false
    · have hne : s.id.getD "" ≠ url := by
        intro heq
        rw [heq, h] at hmem
        exact absurd hmem (by simp)
      simp only [hmem, if_pos rfl]
      exact ⟨dmem_dinsert_mono acc _ _ h, dget_dinsert_ne acc _ dflt hne⟩
    · simp [hmem, h]
  · simp [hstat, h]

theorem stFold_mem (sts : List ExaStatus) (acc : Dict) (url dflt : String)
    (h : dmem url acc = true) :
    dmem url (sts.foldl stIns acc) = true ∧
      dget (sts.foldl stIns acc) url dflt = dget acc url dflt := by
  induction sts generalizing acc with
  | nil => exact ⟨h, rfl⟩
  | cons s rest ih =>
    rw [List.foldl_cons]
    obtain ⟨h1, h2⟩ := stIns_preserve s dflt h
    obtain ⟨h3, h4⟩ := ih (stIns acc s) h1
    exact ⟨h3, h4.trans h2⟩

theorem stFold_new (sts : List ExaStatus) (acc : Dict) (url dflt : String)
    (h : dmem url acc = false) :
    dget (sts.foldl stIns acc) url dflt =
      (match sts.find? (fun s => s.id.getD "" = url ∧ s.status = some "error") with
      | some s => "Error: " ++ s.error_tag.getD "Unknown error"
      | none => dget acc url dflt) ∧
    dmem url (sts.foldl stIns acc) =
      sts.any (fun s => s.id.getD "" = url ∧ s.status = some "error") := by
  induction sts generalizing acc with
  | nil => simp [h]
  | cons s rest ih =>
    rw [List.foldl_cons, List.any_cons]
    by_cases hmatch : s.id.getD "" = url ∧ s.status = some "error"
    · obtain ⟨hid, hstat⟩ := hmatch
      have hstep : stIns acc s = dinsert acc url ("Error: " ++ s.error_tag.getD "Unknown error") := by
        rw [stIns, hid]
        simp [hstat, h]
      have hmem2 : dmem url (stIns acc s) = true := by
        rw [hstep]; exact dmem_dinsert_self acc _ _
      obtain ⟨hm, hg⟩ := stFold_mem rest (stIns acc s) url dflt hmem2
      have hfind : List.find? (fun s => decide (s.id.getD "" = url ∧ s.status = some "error"))
          (s :: rest) = some s := by
        simp [List.find?, hid, hstat]
      rw [hfind] at *
      refine ⟨?_, ?_⟩
      · rw [hg, hstep]
        exact dget_dinsert_self acc _ _ dflt
      · simp [hm, hid, hstat]
    · have hstep : dmem url (stIns acc s) = false ∧
          dget (stIns acc s) url dflt = dget acc url dflt := by
        rw [stIns]
        by_cases hstat : s.status = some "error"
        · have hid : s.id.getD "" ≠ url := fun heq => hmatch ⟨heq, hstat⟩
          simp only [hstat, if_pos rfl]
          by_cases hmem : dmem (s.id.getD "") acc = false
          · simp only [hmem, if_pos rfl]
            exact ⟨(dmem_dinsert_ne acc _ hid).trans h, dget_dinsert_ne acc _ dflt hid⟩
          · simp [hmem, h]
        · simp [hstat, h]
      obtain ⟨ha, hb⟩ := ih (stIns acc s) hstep.1
      have hfind : List.find? (fun s => decide (s.id.getD "" = url ∧ s.status = some "error"))
          (s :: rest) = List.find? (fun s => decide (s.id.getD "" = url ∧ s.status = some "error")) rest := by
        simp [List.find?, hmatch]
      rw [hfind]
      refine ⟨?_, ?_⟩
      · rw [ha]
        cases rest.find? (fun s => decide (s.id.getD "" = url ∧ s.status = some "error")) with
        | some s' => rfl
        | none => exact hstep.2
      · rw [hb]
        simp [hmatch]

theorem fillIns_preserve {acc : Dict} {url : String} (u dflt : String)
    (h : dmem url acc = true) :
    dmem url (fillIns acc u) = true ∧ dget (fillIns acc u) url dflt = dget acc url dflt := by
  rw [fillIns]
  by_cases hmem : dmem u acc = false
  · have hne : u ≠ url := by
      intro heq
      rw [heq, h] at hmem
      exact absurd hmem (by simp)
    simp only [hmem, if_pos rfl]
    exact ⟨dmem_dinsert_mono acc _ _ h, dget_dinsert_ne acc _ dflt hne⟩
  · simp [hmem, h]

theorem fillFold_mem (us : List String) (acc : Dict) (url dflt : String)
    (h : dmem url acc = true) :
    dmem url (us.foldl fillIns acc) = true ∧
      dget (us.foldl fillIns acc) url dflt = dget acc url dflt := by
  induction us generalizing acc with
  | nil => exact ⟨h, rfl⟩
  | cons u rest ih =>
    rw [List.foldl_cons]
    obtain ⟨h1, h2⟩ := fillIns_preserve u dflt h
    obtain ⟨h3, h4⟩ := ih (fillIns acc u) h1
    exact ⟨h3, h4.trans h2⟩

theorem fillFold_new (us : List String) (acc : Dict) (url dflt : String)
    (h : dmem url acc = false) (hmem : url ∈ us) :
    dmem url (us.foldl fillIns acc) = true ∧
      dget (us.foldl fillIns acc) url dflt = "Error: URL not found in response" := by
  induction us generalizing acc with
  | nil => cases hmem
  | cons u rest ih =>
    rw [List.foldl_cons]
    by_cases hu : u = url
    · subst hu
      have hstep : fillIns acc u = dinsert acc u "Error: URL not found in response" := by
        rw [fillIns]; simp [h]
      have hm : dmem u (fillIns acc u) = true := by
        rw [hstep]; exact dmem_dinsert_self acc _ _
      obtain ⟨h3, h4⟩ := fillFold_mem rest (fillIns acc u) u dflt hm
      refine ⟨h3, h4.trans ?_⟩
      rw [hstep]
      exact dget_dinsert_self acc _ _ dflt
    · have hrest : url ∈ rest := by
        cases List.mem_cons.mp hmem with
        | inl heq => exact absurd heq.symm hu
        | inr hr => exact hr
      have hstep : dmem url (fillIns acc u) = false := by
        rw [fillIns]
        by_cases hmemu : dmem u acc = false
        · simp only [hmemu, if_pos rfl]
          exact (dmem_dinsert_ne acc _ hu).trans h
        · simp [hmemu, h]
      exact ih (fillIns acc u) hstep hrest

theorem dget_foldl_const_of (us : List String) (acc : Dict) {url v dflt : String}
    (h : dget acc url dflt = v) :
    dget (us.foldl (fun a u => dinsert a u v) acc) url dflt = v := by
  induction us generalizing acc with
  | nil => exact h
  | cons u rest ih =>
    rw [List.foldl_cons]
    by_cases hu : u = url
    · subst hu
      exact ih _ (dget_dinsert_self acc u v dflt)
    · exact ih _ ((dget_dinsert_ne acc v dflt hu).trans h)

/-- Inserting the same value for every key of a list: afterwards every key
of the list reads back that value. -/
theorem dget_foldl_const (us : List String) (acc : Dict) (url v dflt : String)
    (hmem : url ∈ us) :
    dget (us.foldl (fun a u => dinsert a u v) acc) url dflt = v := by
  induction us generalizing acc with
  | nil => cases hmem
  | cons u rest ih =>
    rw [List.foldl_cons]
    by_cases hu : u = url
    · subst hu
      exact dget_foldl_const_of rest _ (dget_dinsert_self acc u v dflt)
    · have hrest : url ∈ rest := by
        cases List.mem_cons.mp hmem with
        | inl heq => exact absurd heq.symm hu
        | inr hr => exact hr
      exact ih _ hrest

/-! ## Lemmas about the chunking and the event trace -/

theorem chunksOf10_cons (u : String) (us : List String) :
    chunksOf10 (u :: us) = ((u :: us).take 10) :: chunksOf10 ((u :: us).drop 10) := by
  simp [chunksOf10]

theorem chunksOf10_flatten : ∀ l, (chunksOf10 l).flatten = l := by
  intro l
  induction l using chunksOf10.induct with
  | case1 => simp [chunksOf10]
  | case2 u us ih =>
    simp [chunksOf10] at ih ⊢
    rw [ih]
    exact List.take_append_drop 9 us

theorem chunksOf10_sizes : ∀ l, ∀ c ∈ chunksOf10 l, c ≠ [] ∧ c.length ≤ 10 := by
  intro l
  induction l using chunksOf10.induct with
  | case1 => simp [chunksOf10]
  | case2 u us ih =>
    intro c hc
    rw [chunksOf10_cons] at hc
    rcases List.mem_cons.mp hc with h | h
    · subst h
      constructor
      · simp
      · simp
    · exact ih c h

theorem chunksOf10_dropLast : ∀ l, ∀ c ∈ (chunksOf10 l).dropLast, c.length = 10 := by
  intro l
  induction l using chunksOf10.induct with
  | case1 => simp [chunksOf10]
  | case2 u us ih =>
    intro c hc
    rw [chunksOf10_cons] at hc
    by_cases hrest : chunksOf10 ((u :: us).drop 10) = []
    · rw [hrest] at hc
      simp at hc
    · rw [List.dropLast_cons_of_ne_nil hrest] at hc
      rcases List.mem_cons.mp hc with h | h
      · subst h
        have hlen : 10 < (u :: us).length := by
          by_contra hle
          push_neg at hle
          have hnil : (u :: us).drop 10 = [] := List.drop_eq_nil_of_le hle
          rw [hnil] at hrest
          simp [chunksOf10] at hrest
        rw [List.length_take]
        simp [List.length_cons] at hlen ⊢
        omega
      · exact ih c h

theorem fetchEvents_append (a b : List NetEvent) :
    fetchEvents (a ++ b) = fetchEvents a ++ fetchEvents b := by
  induction a with
  | nil => rfl
  | cons e rest ih =>
    cases e <;> simp [fetchEvents, ih]

theorem get_content_batch_events (fetchOracle : List String → Except String ExaResponse)
    (batch : List String) (hne : batch ≠ []) :
    (get_content_batch fetchOracle batch).2 = [NetEvent.fetch batch] := by
  rw [get_content_batch]
  simp only [hne, if_neg hne]
  cases fetchOracle batch <;> rfl

/-- Every chunk handed to the loop is dispatched to the content service,
whether its fetch succeeds or raises: chunk failures never abort the loop. -/
theorem batchLoop_fetchEvents (fetchOracle : List String → Except String ExaResponse)
    (chunks : List (List String)) (acc : Dict)
    (hne : ∀ b ∈ chunks, b ≠ []) :
    fetchEvents (batchLoopGo fetchOracle chunks acc).2 = chunks := by
  induction chunks generalizing acc with
  | nil => rfl
  | cons batch rest ih =>
    have hb : batch ≠ [] := hne batch (List.mem_cons_self batch rest)
    have hrest : ∀ b ∈ rest, b ≠ [] := fun b hbm => hne b (List.mem_cons_of_mem batch hbm)
    rw [batchLoopGo]
    cases hgc : get_content_batch fetchOracle batch with
    | mk fst evs =>
      have hevs : evs = [NetEvent.fetch batch] := by
        have := get_content_batch_events fetchOracle batch hb
        rw [hgc] at this
        exact this
      subst hevs
      cases fst with
      | ok batch_results =>
        simp only []
        rw [fetchEvents_append, fetchEvents_append, ih _ hrest]
        by_cases hr : rest = [] <;> simp [hr, fetchEvents]
      | error e =>
        simp only []
        rw [fetchEvents_append, ih _ hrest]
        simp [fetchEvents]

/-- When every batch call succeeds, the trace is exactly the batches in
order with one pause between consecutive batches and none after the last. -/
theorem batchLoop_trace_ok (fetchOracle : List String → Except String ExaResponse)
    (chunks : List (List String)) (acc : Dict)
    (hne : ∀ b ∈ chunks, b ≠ [])
    (hok : ∀ b ∈ chunks, ∃ d, fetchOracle b = Except.ok d) :
    (batchLoopGo fetchOracle chunks acc).2 = sleepSep chunks := by
  induction chunks generalizing acc with
  | nil => rfl
  | cons batch rest ih =>
    have hb : batch ≠ [] := hne batch (List.mem_cons_self batch rest)
    obtain ⟨data, hdata⟩ := hok batch (List.mem_cons_self batch rest)
    have hgc : get_content_batch fetchOracle batch =
        (Except.ok (parse_exa_response batch data), [NetEvent.fetch batch]) := by
      rw [get_content_batch]
      simp [hb, hdata]
    rw [batchLoopGo, hgc]
    simp only []
    rw [ih _ (fun b hbm => hne b (List.mem_cons_of_mem batch hbm))
        (fun b hbm => hok b (List.mem_cons_of_mem batch hbm))]
    cases rest with
    | nil => simp [sleepSep]
    | cons b2 rest2 => simp [sleepSep]

/-! ## Classification client (`utils/openrouter_api.py`, class `OpenRouterAPI`)

The wire response of the chat-completion service: a `choices` list whose
first element carries a `message` with `content` and optionally
`reasoning` text.  `Option` models an absent JSON key. -/

structure ORMessage where
  content : Option String
  reasoning : Option String

structure ORChoice where
  message : Option ORMessage

structure ORResponse where
  choices : Option (List ORChoice)

/-- `OpenRouterAPI._create_classification_prompt` (`openrouter_api.py`
lines 57-102): truncate the content to 8000 characters (appending a
truncation marker) and interpolate business name and content into the
fixed prompt template.  The template text is reproduced verbatim from the
source (the one ASCII apostrophe is written as the escape `\x27`). -/
def create_classification_prompt (business_name content : String) : String :=
  let content := if content.length > 8000 then pyTake content 8000 ++ "... [truncated]" else content
  "You are a business classification expert. Your task is to determine if the scraped content from a website is associated with the given business name.\n\nExample A  \nBusiness Name: “Acme Widgets, Inc.”  \nScraped Content: “Acme Widgets has been crafting innovative widgets since 1920…”  \n→ VALID  \n\nExample B  \nBusiness Name: “Acme Widgets, Inc.”  \nScraped Content: “Learn how to repair your car’s alternator—no mention of widgets or Acme.”  \n→ INVALID  \n\nConsider:\n- Does the content mention the business name or variations of it?\n- Is this the business\x27s official website or a legitimate page about them?\n- Are there clear indicators this is the correct business?\n\nRespond with ONLY one word: VALID or INVALID.\n\nVALID = You are at least 50% certain that the content is associated with the business\nINVALID = You are less than 50% certain that the content is associated with the business\n\nYour Task:  \nBusiness Name: "
    ++ business_name ++ "  \nScraped Content: " ++ content ++ "\n\nResponse:"

/-- `OpenRouterAPI._parse_classification_response` (`openrouter_api.py`
lines 150-207).  With at least one choice: take the primary message
content, stripped and uppercased; if it is empty and the message carries a
`reasoning` key, search the uppercased reasoning for the exact tokens
`VALID` / `INVALID` (defaulting to `INVALID`); otherwise search the content
tokens the same way.  Without choices: `"ERROR: No response content"`.
The source's outer `try` has nothing left to catch in this model, since
every step here is total. -/
def parse_classification_response (response : ORResponse) : String :=
  match response.choices with
  | some (choice :: _) =>
    let message := choice.message.getD { content := none, reasoning := none }
    let content := pyUpper (pyStrip (message.content.getD ""))
    if content = "" ∧ message.reasoning.isSome then
      let reasoning := pyStrip (message.reasoning.getD "")
      let reasoning_words := pySplitWS (pyUpper reasoning)
      if "VALID" ∈ reasoning_words then "VALID"
      else if "INVALID" ∈ reasoning_words then "INVALID"
      else "INVALID"
    else
      let content_words := pySplitWS content
      if "VALID" ∈ content_words then "VALID"
      else if "INVALID" ∈ content_words then "INVALID"
      else "INVALID"
  | _ => "ERROR: No response content"

/-- `OpenRouterAPI.classify_business` (`openrouter_api.py` lines 24-55).
`apiCall` models `_make_api_call` (HTTP POST + `raise_for_status` +
`response.json()`); `Except.error e` models a raised exception, which the
surrounding `try` turns into the returned verdict `"ERROR: <e>"`.  Prompt
construction and response parsing are total in this model, so the oracle
is the only exception source the `except` clause can see. -/
def classify_business (apiCall : String → Except String ORResponse)
    (business_name content : String) : String :=
  match apiCall (create_classification_prompt business_name content) with
  | Except.ok response => parse_classification_response response
  | Except.error e => "ERROR: " ++ e

/-- Modelled from the words of claim C5 alone (for comparison with the
source parser): uppercase the primary message text, split it into
whitespace-delimited tokens, return `VALID` on an exact `VALID` token,
else `INVALID` on an exact `INVALID` token, else `INVALID`. -/
def parse_claimC5_spec (response : ORResponse) : String :=
  match response.choices with
  | some (choice :: _) =>
    let message := choice.message.getD { content := none, reasoning := none }
    let words := pySplitWS (pyUpper (message.content.getD ""))
    if "VALID" ∈ words then "VALID"
    else if "INVALID" ∈ words then "INVALID"
    else "INVALID"
  | _ => "ERROR: No response content"

/-- Modelled from the amended wording of claim C5: the token search runs
over the stripped, uppercased primary message content, except that when
that content is empty and the message carries a reasoning field, it runs
over the stripped, uppercased reasoning text instead; `VALID` on an exact
`VALID` token, else `INVALID` on an exact `INVALID` token, else `INVALID`
by default. -/
def parse_claimC5_amended (response : ORResponse) : String :=
  match response.choices with
  | some (choice :: _) =>
    let message := choice.message.getD { content := none, reasoning := none }
    let content := pyUpper (pyStrip (message.content.getD ""))
    let chosen :=
      if content = "" ∧ message.reasoning.isSome then
        pyUpper (pyStrip (message.reasoning.getD ""))
      else content
    let words := pySplitWS chosen
    if "VALID" ∈ words then "VALID"
    else if "INVALID" ∈ words then "INVALID"
    else "INVALID"
  | _ => "ERROR: No response content"

/-! ## Input validation (`utils/csv_handler.py`, class `CSVHandler`) -/

/-- `CSVHandler.__init__`: `self.required_columns = ['business_name', 'URL']`. -/
def required_columns : List String := ["business_name", "URL"]

/-- `[col for col in self.required_columns if col not in df.columns]`
(`csv_handler.py` line 41). -/
def missing_columns (columns : List String) : List String :=
  required_columns.filter (fun col => ¬ (col ∈ columns))

/-- `CSVHandler._validate_columns` (`csv_handler.py` lines 39-44):
raise (`Except.error`) iff the missing-column list is nonempty.  The error
message renders the missing list (the Python repr rendering of the list is
modelled as a comma-separated join). -/
def validate_columns (columns : List String) : Except String Unit :=
  if missing_columns columns = [] then Except.ok ()
  else Except.error ("Missing required columns: " ++ String.intercalate ", " (missing_columns columns))

/-! ## Row pipeline and aggregation (`app.py`) -/

/-- One output row (`app.py` lines 158-164). -/
structure ResultRecord where
  business_name : String
  URL : String
  scraped_content : String
  website_working : Bool
  result : String
deriving DecidableEq

/-- The phase-2 loop body of `process_urls_optimized` (`app.py` lines
114-164) for one row `(business_name, url)`: look up the retrieved
content (default `"Error: No content retrieved"`); if it starts with
`"Error"`, synthesize the verdict `ERROR` without calling the classifier;
otherwise call the classifier, converting a raised exception into
`"ERROR: Classification failed - <e>"`.  The second component counts the
classifier invocations made for this row (the source's `processed_count`
increments exactly when the classifier was invoked, in both the success
and the exception branch). -/
def processRow (classify : String → String → Except String String)
    (content_results : Dict) (row : String × String) : ResultRecord × Nat :=
  let business_name := row.1
  let url := row.2
  let content := dget content_results url "Error: No content retrieved"
  if pyStartsWith content "Error" then
    ({ business_name := business_name, URL := url, scraped_content := content,
       website_working := !(pyStartsWith content "Error"), result := "ERROR" }, 0)
  else
    let result :=
      match classify business_name content with
      | Except.ok r => r
      | Except.error e => "ERROR: Classification failed - " ++ e
    ({ business_name := business_name, URL := url, scraped_content := content,
       website_working := !(pyStartsWith content "Error"), result := result }, 1)

/-- Phase 2 of `process_urls_optimized`: one record per input row, in input
order. -/
def process_urls_optimized (classify : String → String → Except String String)
    (content_results : Dict) (rows : List (String × String)) : List ResultRecord :=
  rows.map (fun row => (processRow classify content_results row).1)

/-- The whole run of `process_urls_optimized` (`app.py` lines 67-191):
phase 1 retrieves content for `df['URL'].tolist()` via
`process_urls_in_batches`, phase 2 builds the records. -/
def runPipeline (fetchOracle : List String → Except String ExaResponse)
    (classify : String → String → Except String String)
    (rows : List (String × String)) : List ResultRecord :=
  process_urls_optimized classify
    (process_urls_in_batches fetchOracle (rows.map (fun row => row.2))).1 rows

/-- `display_results` summary metric (`app.py` line 353). -/
def valid_count (results : List ResultRecord) : Nat :=
  (results.filter (fun r => r.result = "VALID")).length

/-- `display_results` summary metric (`app.py` line 357). -/
def invalid_count (results : List ResultRecord) : Nat :=
  (results.filter (fun r => r.result = "INVALID")).length

/-- `display_results` summary metric (`app.py` line 361). -/
def error_count (results : List ResultRecord) : Nat :=
  (results.filter (fun r => r.result = "ERROR")).length

/-! ## Further helper lemmas -/

theorem dget_of_dmem_false (d : Dict) (k dflt : String) (h : dmem k d = false) :
    dget d k dflt = dflt := by
  induction d with
  | nil => rfl
  | cons p rest ih =>
    obtain ⟨k0, v0⟩ := p
    rw [dmem] at h
    by_cases hk : k0 = k
    · rw [if_pos hk] at h
      exact absurd h (by simp)
    · rw [if_neg hk] at h
      rw [dget, if_neg hk]
      exact ih h

theorem errWithDetail_ne_valid (det : String) : "ERROR: " ++ det ≠ "VALID" := by
  intro h
  have hl := congrArg String.length h
  rw [String.length_append] at hl
  have h1 : ("ERROR: " : String).length = 7 := rfl
  have h2 : ("VALID" : String).length = 5 := rfl
  rw [h1, h2] at hl
  omega

theorem errWithDetail_ne_error (det : String) : "ERROR: " ++ det ≠ "ERROR" := by
  intro h
  have hl := congrArg String.length h
  rw [String.length_append] at hl
  have h1 : ("ERROR: " : String).length = 7 := rfl
  have h2 : ("ERROR" : String).length = 5 := rfl
  rw [h1, h2] at hl
  omega

theorem errWithDetail_ne_invalid (det : String) : "ERROR: " ++ det ≠ "INVALID" := by
  intro h
  have hd := congrArg String.data h
  rw [String.data_append] at hd
  have h1 : ("ERROR: " : String).data = 'E' :: 'R' :: 'R' :: 'O' :: 'R' :: ':' :: ' ' :: [] := rfl
  have h2 : ("INVALID" : String).data = 'I' :: 'N' :: 'V' :: 'A' :: 'L' :: 'I' :: 'D' :: [] := rfl
  rw [h1, h2] at hd
  simp only [List.cons_append] at hd
  injection hd with hhead _
  exact absurd hhead (by decide)

theorem processRow_projections (classify : String → String → Except String String)
    (content_results : Dict) (row : String × String) :
    (processRow classify content_results row).1.business_name = row.1
    ∧ (processRow classify content_results row).1.URL = row.2 := by
  rw [processRow]
  split <;> exact ⟨rfl, rfl⟩

/-! ## The claims -/

/-- C10: for the empty URL list, `get_content_batch` returns the empty
mapping before any request is built (no `fetch` event, whatever the
network oracle would do), and the batching loop of
`process_urls_in_batches` executes zero iterations: empty mapping, empty
trace. -/
theorem empty_input_no_network (fetchOracle : List String → Except String ExaResponse) :
    get_content_batch fetchOracle [] = (Except.ok [], [])
    ∧ process_urls_in_batches fetchOracle [] = ([], []) := by
  constructor
  · rfl
  · rw [process_urls_in_batches]
    simp [chunksOf10, batchLoopGo]

/-- C8 counterexample: a table with columns `business_name` and lowercase
`url` has both columns demanded by the claim, yet validation fails,
because the source requires the column name `URL`. -/
theorem missing_columns_case_counterexample :
    validate_columns ["business_name", "url"] =
      Except.error "Missing required columns: URL"
    ∧ ("business_name" ∈ ["business_name", "url"] ∧ "url" ∈ ["business_name", "url"]) := by
  exact ⟨rfl, by decide, by decide⟩

/-- C8 (amended): validation fails with the missing-columns error if and
only if a column named `business_name` or a column named `URL`
(case-sensitive names) is absent from the table. -/
theorem missing_columns_iff (columns : List String) :
    (∃ e, validate_columns columns = Except.error e) ↔
      ("business_name" ∉ columns ∨ "URL" ∉ columns) := by
  rw [validate_columns]
  by_cases h1 : "business_name" ∈ columns <;> by_cases h2 : "URL" ∈ columns <;>
    simp [missing_columns, required_columns, List.filter, h1, h2]

/-- C9: the summary counts compare `result` by exact string equality, so a
record whose result is `"ERROR: <detail>"` is counted by none of the three
metrics, while a record whose result is exactly `"ERROR"` is counted by
the error metric. -/
theorem summary_counts_exact (rs : List ResultRecord) (r r' : ResultRecord) (det : String)
    (h : r.result = "ERROR: " ++ det) (h' : r'.result = "ERROR") :
    valid_count (rs ++ [r]) = valid_count rs
    ∧ invalid_count (rs ++ [r]) = invalid_count rs
    ∧ error_count (rs ++ [r]) = error_count rs
    ∧ error_count (rs ++ [r']) = error_count rs + 1 := by
  refine ⟨?_, ?_, ?_, ?_⟩
  · simp [valid_count, List.filter_append, List.filter, h, errWithDetail_ne_valid det]
  · simp [invalid_count, List.filter_append, List.filter, h, errWithDetail_ne_invalid det]
  · simp [error_count, List.filter_append, List.filter, h, errWithDetail_ne_error det]
  · simp [error_count, List.filter_append, List.filter, h']

/-- A concrete record carrying a detailed error verdict (for the C9
witness). -/
def recDetailErr : ResultRecord :=
  { business_name := "A", URL := "u", scraped_content := "c",
    website_working := true, result := "ERROR: Classification failed - boom" }

/-- A concrete record carrying the bare `"ERROR"` verdict (for the C9
witness). -/
def recBareErr : ResultRecord :=
  { business_name := "A", URL := "u", scraped_content := "c",
    website_working := true, result := "ERROR" }

/-- Witness for C9 at concrete records. -/
theorem summary_counts_exact_witness :
    valid_count [recDetailErr] = 0
    ∧ invalid_count [recDetailErr] = 0
    ∧ error_count [recDetailErr] = 0
    ∧ error_count [recBareErr] = 1 := by
  have h := summary_counts_exact [] recDetailErr recBareErr "Classification failed - boom" rfl rfl
  exact ⟨h.1, h.2.1, h.2.2.1, h.2.2.2⟩

/-- C7: `classify_business` never raises outward: a raised exception from
the API call comes back as the verdict `"ERROR: <message>"`, and a
response without choices comes back as `"ERROR: No response content"`
(the model is a total function, so no other outcome can escape). -/
theorem classify_business_total (apiCall : String → Except String ORResponse)
    (business_name content : String) :
    (∀ e, apiCall (create_classification_prompt business_name content) = Except.error e →
      classify_business apiCall business_name content = "ERROR: " ++ e)
    ∧ (∀ response, apiCall (create_classification_prompt business_name content) = Except.ok response →
      (response.choices = none ∨ response.choices = some []) →
      classify_business apiCall business_name content = "ERROR: No response content") := by
  constructor
  · intro e he
    rw [classify_business, he]
  · intro response hresp hchoices
    rw [classify_business, hresp]
    obtain ⟨choices⟩ := response
    rcases hchoices with h | h <;> (simp only [] at h; subst h; rfl)

/-- Witness for C7. -/
theorem classify_business_total_witness :
    classify_business (fun _ => Except.error "API timeout") "Acme" "Some page text"
      = "ERROR: API timeout"
    ∧ classify_business (fun _ => Except.ok { choices := none }) "Acme" "Some page text"
      = "ERROR: No response content" :=
  ⟨(classify_business_total (fun _ => Except.error "API timeout") "Acme" "Some page text").1
      "API timeout" rfl,
   (classify_business_total (fun _ => Except.ok { choices := none }) "Acme" "Some page text").2
      { choices := none } rfl (Or.inl rfl)⟩

/-- C6: when the looked-up content of a row starts with `"Error"`
(including the default `"Error: No content retrieved"` used when the URL
is absent from the mapping), the row pipeline records the verdict exactly
`"ERROR"`, performs zero classifier invocations, and its outcome is
independent of the classifier. -/
theorem row_error_short_circuit (classify classify' : String → String → Except String String)
    (content_results : Dict) (row : String × String)
    (h : pyStartsWith (dget content_results row.2 "Error: No content retrieved") "Error" = true) :
    (processRow classify content_results row).1.result = "ERROR"
    ∧ (processRow classify content_results row).2 = 0
    ∧ processRow classify content_results row = processRow classify' content_results row
    ∧ (dmem row.2 content_results = false →
        dget content_results row.2 "Error: No content retrieved" = "Error: No content retrieved") := by
  refine ⟨?_, ?_, ?_, fun habs => dget_of_dmem_false content_results row.2 _ habs⟩ <;>
    simp [processRow, h]

/-- Witness for C6: a URL absent from the mapping falls back to the
default error content and is short-circuited. -/
theorem row_error_short_circuit_witness :
    pyStartsWith (dget [] "http://a.com" "Error: No content retrieved") "Error" = true
    ∧ (processRow (fun _ _ => Except.ok "VALID") [] ("Acme", "http://a.com")).1.result = "ERROR"
    ∧ (processRow (fun _ _ => Except.ok "VALID") [] ("Acme", "http://a.com")).2 = 0 := by
  have h : pyStartsWith (dget [] "http://a.com" "Error: No content retrieved") "Error" = true := by
    decide
  have hmain := row_error_short_circuit (fun _ _ => Except.ok "VALID")
    (fun _ _ => Except.ok "INVALID") [] ("Acme", "http://a.com") h
  exact ⟨h, hmain.1, hmain.2.1⟩

/-- C1: the run produces exactly one record per input row, in the original
row order (the i-th record carries the i-th row's business name and URL),
for every behaviour of the retrieval and classification oracles — any
failure included. -/
theorem one_record_per_row (fetchOracle : List String → Except String ExaResponse)
    (classify : String → String → Except String String)
    (rows : List (String × String)) :
    (runPipeline fetchOracle classify rows).length = rows.length
    ∧ (runPipeline fetchOracle classify rows).map (fun r => (r.business_name, r.URL)) = rows := by
  constructor
  · rw [runPipeline, process_urls_optimized]
    exact List.length_map _ _
  · rw [runPipeline, process_urls_optimized, List.map_map]
    have hcongr : ∀ row ∈ rows,
        ((fun r : ResultRecord => (r.business_name, r.URL)) ∘
          (fun row => (processRow classify
            (process_urls_in_batches fetchOracle (rows.map (fun row => row.2))).1 row).1)) row
        = id row := by
      intro row _
      obtain ⟨h1, h2⟩ := processRow_projections classify
        (process_urls_in_batches fetchOracle (rows.map (fun row => row.2))).1 row
      simp [h1, h2]
    rw [List.map_congr_left hcongr, List.map_id]

/-- A concrete classification response with an empty primary message text
and a `reasoning` field whose tokens contain `VALID` (for C5). -/
def rexC5 : ORResponse :=
  ORResponse.mk (some [ORChoice.mk (some
    (ORMessage.mk (some "") (some "Clearly VALID because the page matches")))])

/-- C5 counterexample: on a response whose primary message text is empty
but whose message carries a reasoning text containing the token `VALID`,
the source parser answers `VALID`, while the claimed algorithm (tokens of
the primary message text only, defaulting to `INVALID`) answers
`INVALID`. -/
theorem parse_reasoning_counterexample :
    parse_classification_response rexC5 = "VALID"
    ∧ parse_claimC5_spec rexC5 = "INVALID"
    ∧ ("VALID" : String) ≠ "INVALID" := by
  refine ⟨by decide, by decide, by decide⟩

/-- C5 (amended): the parser's token search runs over the stripped,
uppercased primary message content — except that when that content is
empty and the message carries a reasoning field, it runs over the
stripped, uppercased reasoning text — returning `VALID` on an exact
`VALID` token, else `INVALID` on an exact `INVALID` token, else `INVALID`
(fail-closed); substring occurrences inside other words never count, as
the concrete conjunct illustrates. -/
theorem parse_classification_amended :
    (∀ response, parse_classification_response response = parse_claimC5_amended response)
    ∧ parse_classification_response
        (ORResponse.mk (some [ORChoice.mk (some
          (ORMessage.mk (some "The page is NOTVALID and INVALIDATED.") none))]))
      = "INVALID" := by
  constructor
  · intro response
    obtain ⟨choices⟩ := response
    cases choices with
    | none => rfl
    | some l =>
      cases l with
      | nil => rfl
      | cons choice rest =>
        simp only [parse_classification_response, parse_claimC5_amended]
        by_cases h : pyUpper (pyStrip
              ((choice.message.getD { content := none, reasoning := none }).content.getD "")) = ""
            ∧ ((choice.message.getD { content := none, reasoning := none }).reasoning.isSome
                : Prop)
        · simp only [if_pos h]
        · simp only [if_neg h]
  · decide

/-- C4: for every requested URL, the mapping built from a successful batch
response has an entry, and its value is described by `exaLookup`: the text
of the matching result item if one exists; else the `"Error: <tag>"`
marker of the first matching errored status (success takes precedence);
else `"Error: URL not found in response"`. -/
theorem content_batch_mapping (urls : List String) (data : ExaResponse) (url dflt : String)
    (hmem : url ∈ urls) :
    dmem url (parse_exa_response urls data) = true
    ∧ dget (parse_exa_response urls data) url dflt = exaLookup data url := by
  rw [parse_exa_response, exaLookup]
  cases hres : (data.results.getD []).reverse.find? (fun r => r.id.getD "" = url) with
  | some r =>
    have hdget1 : dget ((data.results.getD []).foldl resIns []) url dflt
        = r.text.getD "No content available" := by
      rw [resFold_dget, hres]
    have hmem1 : dmem url ((data.results.getD []).foldl resIns []) = true := by
      rw [resFold_dmem]
      have hpr := List.find?_some hres
      have hin := List.mem_reverse.mp (List.mem_of_find?_eq_some hres)
      have hany : (data.results.getD []).any (fun r => r.id.getD "" = url) = true := by
        rw [List.any_eq_true]
        exact ⟨r, hin, hpr⟩
      rw [hany]
      rfl
    obtain ⟨hm2, hg2⟩ := stFold_mem (data.statuses.getD []) _ url dflt hmem1
    obtain ⟨hm3, hg3⟩ := fillFold_mem urls _ url dflt hm2
    exact ⟨hm3, by rw [hg3, hg2, hdget1]⟩
  | none =>
    have hany : (data.results.getD []).any (fun r => r.id.getD "" = url) = false := by
      rw [← List.any_reverse]
      rcases hany2 : (data.results.getD []).reverse.any (fun r => r.id.getD "" = url) with _ | _
      · rfl
      · obtain ⟨r, hin, hpr⟩ := List.any_eq_true.mp hany2
        exact absurd hpr (List.find?_eq_none.mp hres r hin)
    have hmem1 : dmem url ((data.results.getD []).foldl resIns []) = false := by
      rw [resFold_dmem, hany]
      rfl
    have hdget1 : dget ((data.results.getD []).foldl resIns []) url dflt = dflt := by
      rw [resFold_dget, hres]
      rfl
    obtain ⟨hg2, hm2⟩ := stFold_new (data.statuses.getD []) _ url dflt hmem1
    cases hst : (data.statuses.getD []).find?
        (fun s => s.id.getD "" = url ∧ s.status = some "error") with
    | some s =>
      have hm2' : dmem url ((data.statuses.getD []).foldl stIns
          ((data.results.getD []).foldl resIns [])) = true := by
        rw [hm2]
        have hpr := List.find?_some hst
        exact List.any_eq_true.mpr ⟨s, List.mem_of_find?_eq_some hst, hpr⟩
      obtain ⟨hm3, hg3⟩ := fillFold_mem urls _ url dflt hm2'
      rw [hst] at hg2
      exact ⟨hm3, hg3.trans hg2⟩
    | none =>
      have hm2' : dmem url ((data.statuses.getD []).foldl stIns
          ((data.results.getD []).foldl resIns [])) = false := by
        rw [hm2]
        rcases hany2 : (data.statuses.getD []).any
            (fun s => s.id.getD "" = url ∧ s.status = some "error") with _ | _
        · rfl
        · obtain ⟨s, hin, hpr⟩ := List.any_eq_true.mp hany2
          exact absurd hpr ((List.find?_eq_none.mp hst) s hin)
      obtain ⟨hm3, hg3⟩ := fillFold_new urls _ url dflt hm2' hmem
      exact ⟨hm3, hg3⟩

/-- A concrete batch response exercising all the C4 cases: a result for
`"http://a.com"`, a stray errored status for `"http://a.com"` (which must
lose against the successful result), an errored status for
`"http://b.com"`, and nothing at all for `"http://c.com"`. -/
def dataC4 : ExaResponse :=
  ExaResponse.mk
    (some [ExaResult.mk (some "http://a.com") (some "Welcome to Acme")])
    (some [ExaStatus.mk (some "http://a.com") (some "error") (some "STALE"),
           ExaStatus.mk (some "http://b.com") (some "error") (some "CRAWL_FAILED")])

/-- Witness for C4 at `dataC4`, covering the success, error and absent
cases (and success-over-error precedence for `"http://a.com"`). -/
theorem content_batch_mapping_witness :
    ("http://a.com" ∈ ["http://a.com", "http://b.com", "http://c.com"]
      ∧ dget (parse_exa_response ["http://a.com", "http://b.com", "http://c.com"] dataC4)
          "http://a.com" "" = exaLookup dataC4 "http://a.com")
    ∧ exaLookup dataC4 "http://a.com" = "Welcome to Acme"
    ∧ dget (parse_exa_response ["http://a.com", "http://b.com", "http://c.com"] dataC4)
        "http://b.com" "" = exaLookup dataC4 "http://b.com"
    ∧ exaLookup dataC4 "http://b.com" = "Error: CRAWL_FAILED"
    ∧ dget (parse_exa_response ["http://a.com", "http://b.com", "http://c.com"] dataC4)
        "http://c.com" "" = exaLookup dataC4 "http://c.com"
    ∧ exaLookup dataC4 "http://c.com" = "Error: URL not found in response" := by
  refine ⟨⟨by decide, ?_⟩, by decide, ?_, by decide, ?_, by decide⟩
  · exact (content_batch_mapping _ dataC4 "http://a.com" "" (by decide)).2
  · exact (content_batch_mapping _ dataC4 "http://b.com" "" (by decide)).2
  · exact (content_batch_mapping _ dataC4 "http://c.com" "" (by decide)).2

/-- C2: when the batch call of a chunk raises, the orchestrator records
every URL of that chunk in the accumulated mapping as
`"Batch error: " ++ <message>` and continues with the next chunk (the loop
step literally becomes the loop on the remaining chunks, started from the
marked accumulator), and — failure or not — every chunk of every run is
dispatched: a chunk failure never aborts the run. -/
theorem batch_failure_isolated (fetchOracle : List String → Except String ExaResponse)
    (chunk : List String) (restChunks : List (List String)) (acc : Dict) (e dflt : String)
    (hfail : (get_content_batch fetchOracle chunk).1 = Except.error e) :
    batchLoopGo fetchOracle (chunk :: restChunks) acc =
      ((batchLoopGo fetchOracle restChunks
          (chunk.foldl (fun a url => dinsert a url ("Batch error: " ++ e)) acc)).1,
        (get_content_batch fetchOracle chunk).2 ++
          (batchLoopGo fetchOracle restChunks
            (chunk.foldl (fun a url => dinsert a url ("Batch error: " ++ e)) acc)).2)
    ∧ (∀ url ∈ chunk,
        dget (chunk.foldl (fun a url => dinsert a url ("Batch error: " ++ e)) acc) url dflt
          = "Batch error: " ++ e)
    ∧ (∀ urls, fetchEvents (process_urls_in_batches fetchOracle urls).2 = chunksOf10 urls) := by
  refine ⟨?_, ?_, ?_⟩
  · cases hgc : get_content_batch fetchOracle chunk with
    | mk fst evs =>
      cases fst with
      | ok d =>
        rw [hgc] at hfail
        cases hfail
      | error e' =>
        rw [hgc] at hfail
        have he : e' = e := by
          injection hfail
        subst he
        rw [batchLoopGo, hgc]
  · intro url hurl
    exact dget_foldl_const chunk acc url _ dflt hurl
  · intro urls
    rw [process_urls_in_batches]
    exact batchLoop_fetchEvents fetchOracle (chunksOf10 urls) []
      (fun b hb => (chunksOf10_sizes urls b hb).1)

/-- Witness for C2: a network failure on the first chunk marks both its
URLs and does not prevent the second chunk from being dispatched. -/
theorem batch_failure_isolated_witness :
    (get_content_batch (fun _ => Except.error "boom") ["http://x.com", "http://y.com"]).1
      = Except.error "Network error: boom"
    ∧ dget (List.foldl (fun a url => dinsert a url ("Batch error: " ++ "Network error: boom"))
        [] ["http://x.com", "http://y.com"]) "http://x.com" "" = "Batch error: Network error: boom"
    ∧ fetchEvents (process_urls_in_batches (fun _ => Except.error "boom")
        ["http://x.com", "http://y.com"]).2 = chunksOf10 ["http://x.com", "http://y.com"] := by
  have hmain := batch_failure_isolated (fun _ => Except.error "boom")
    ["http://x.com", "http://y.com"] [["http://z.com"]] [] "Network error: boom" "" rfl
  exact ⟨rfl, hmain.2.1 "http://x.com" (by decide), hmain.2.2 ["http://x.com", "http://y.com"]⟩

/-- C3: the orchestrator splits any URL list into the consecutive slices
`urls[i : i + 10]` (every chunk nonempty and of size at most 10, every
chunk but the last of size exactly 10, and their concatenation is the
input), and when every batch call succeeds the emitted trace dispatches
the chunks sequentially with exactly one 0.5-unit pause between
consecutive chunks and none after the last. -/
theorem batching_policy (urls : List String)
    (fetchOracle : List String → Except String ExaResponse)
    (hok : ∀ b, ∃ data, fetchOracle b = Except.ok data) :
    (process_urls_in_batches fetchOracle urls).2 = sleepSep (chunksOf10 urls)
    ∧ (chunksOf10 urls).flatten = urls
    ∧ (∀ c ∈ chunksOf10 urls, c ≠ [] ∧ c.length ≤ 10)
    ∧ (∀ c ∈ (chunksOf10 urls).dropLast, c.length = 10) := by
  refine ⟨?_, chunksOf10_flatten urls, chunksOf10_sizes urls, chunksOf10_dropLast urls⟩
  rw [process_urls_in_batches]
  exact batchLoop_trace_ok fetchOracle (chunksOf10 urls) []
    (fun b hb => (chunksOf10_sizes urls b hb).1) (fun b _ => hok b)

/-- A 25-URL input for the C3 scenario. -/
def urls25 : List String :=
  ["u01", "u02", "u03", "u04", "u05", "u06", "u07", "u08", "u09", "u10",
   "u11", "u12", "u13", "u14", "u15", "u16", "u17", "u18", "u19", "u20",
   "u21", "u22", "u23", "u24", "u25"]

/-- An always-successful content-service oracle returning an empty
response body. -/
def fetchOk : List String → Except String ExaResponse :=
  fun _ => Except.ok (ExaResponse.mk none none)

/-- Witness for C3: 25 URLs yield exactly the chunks (10, 10, 5), and the
trace pauses after the first and second chunk only. -/
theorem batching_policy_witness :
    (process_urls_in_batches fetchOk urls25).2 = sleepSep (chunksOf10 urls25)
    ∧ (chunksOf10 urls25).map List.length = [10, 10, 5]
    ∧ (process_urls_in_batches fetchOk urls25).2 =
      [NetEvent.fetch ["u01", "u02", "u03", "u04", "u05", "u06", "u07", "u08", "u09", "u10"],
       NetEvent.sleep,
       NetEvent.fetch ["u11", "u12", "u13", "u14", "u15", "u16", "u17", "u18", "u19", "u20"],
       NetEvent.sleep,
       NetEvent.fetch ["u21", "u22", "u23", "u24", "u25"]] := by
  have hmain := batching_policy urls25 fetchOk (fun b => ⟨ExaResponse.mk none none, rfl⟩)
  have hchunks : chunksOf10 urls25 =
      [["u01", "u02", "u03", "u04", "u05", "u06", "u07", "u08", "u09", "u10"],
       ["u11", "u12", "u13", "u14", "u15", "u16", "u17", "u18", "u19", "u20"],
       ["u21", "u22", "u23", "u24", "u25"]] := by
    simp [urls25, chunksOf10]
  refine ⟨hmain.1, ?_, ?_⟩
  · rw [hchunks]
    rfl
  · rw [hmain.1, hchunks]
    rfl

end LinkChecker
